import Mathlib

/-!
Verification of the logical core of the `msingle/prolog` interpreter.

The repository snapshot contains two generations of the term machinery:

* an environment-based engine (`src/unnamed/part_000`, `src/engine/`), in which a
  `Variable` is a plain name string and all bindings live in a persistent
  environment; and
* an older mutable-cell term model (`src/term.go`, tested by
  `src/unnamed/part_002`), in which a `*Variable` is a heap cell carrying an
  optional `Ref` binding, and unification/copying mutate those cells.

Both are embedded below: namespace `Prolog.En` models the engine generation,
namespace `Prolog.Old` models `src/term.go`.  Functions of the source that can
fail to terminate (resolution and unification through binding chains or cyclic
cells) are embedded fuel-indexed: `none` (or `false` for predicates) at fuel
exhaustion; every theorem quantifies the fuel or fixes it large enough, and
fuel-monotonicity lemmas bridge the two.  Go's IEEE-754 `Float` payload is
modelled as an exact rational; no claim below depends on rounding.

Definitions whose implementation files are not part of the snapshot (only
their tests or callers are) carry a doc comment starting with
`Modelled from the spec:`.
-/

namespace Prolog

namespace En

/-- Engine term model, from `src/unnamed/part_000` (`Variable` is a name
string, `ProcedureIndicator.Term` builds `Name/Arity` compounds) and the spec
data model (Atom, Integer, Float, Compound).  The Float payload is modelled as
an exact rational. -/
inductive Term where
  | var (name : String)
  | atom (a : String)
  | int (n : Int)
  | float (q : ℚ)
  | comp (f : String) (args : List Term)

/-- Modelled from the spec: the Environment is a persistent mapping from
variable identity (the name string) to term; the engine's `Env` implementation
file is not part of the snapshot.  `bind` extends, `lookup` finds the most
recent binding. -/
abbrev Env := List (String × Term)

def Env.lookup : Env → String → Option Term
  | [], _ => none
  | (w, t) :: e, v => if w = v then some t else Env.lookup e v

def Env.bind (e : Env) (v : String) (t : Term) : Env := (v, t) :: e

/-- Modelled from the spec: `resolve` walks variable bindings to a non-variable
or an unbound variable.  The walk is bounded by the number of bindings plus
one, which is exact on the acyclic environments the engine constructs. -/
def Env.resolveAux : Nat → Env → Term → Term
  | 0, _, t => t
  | fuel+1, e, t =>
    match t with
    | .var v =>
      match Env.lookup e v with
      | some t' => Env.resolveAux fuel e t'
      | none => .var v
    | t => t

def Env.resolve (e : Env) (t : Term) : Term := Env.resolveAux (e.length + 1) e t

/-- Modelled from the spec: `Contains(t, v, env)` — does the resolved term
mention the variable `v`?  (Used by the occurs check; the engine's
implementation file is not part of the snapshot.)  Fuel-indexed because
resolution through an environment with a cycle need not terminate;
`containsF` is monotone in the fuel. -/
def containsF : Nat → Term → String → Env → Bool
  | 0, _, _, _ => false
  | fuel+1, t, v, env =>
    match Env.resolve env t with
    | .var w => w = v
    | .comp _ args => args.any fun a => containsF fuel a v env
    | _ => false

mutual

/-- Engine unification.  The `.var` arm is `Variable.Unify` from
`src/unnamed/part_000` lines 524-538: resolve both sides; if the left resolves
to an unbound variable, succeed without a new binding when the right resolves
to the same variable, fail when the occurs check is requested and the right
mentions the variable, and bind otherwise; if the left resolves to a
non-variable, delegate to that term's own unification.  The `.atom`/`.int`/
`.float`/`.comp` arms are modelled from the spec (and from the same methods of
the older `src/term.go`): atomic values unify by identity, compounds require
equal functor and arity and unify their arguments pairwise left-to-right
threading the environment, and a variable on the right delegates back to
`Variable.Unify`.  A `false` result carries the environment reached so far,
exactly as the Go methods return `(env, false)`.  Fuel-indexed: without the
occurs check the source can diverge on cyclic bindings. -/
def unifyF : Nat → Term → Term → Bool → Env → Option (Env × Bool)
  | 0, _, _, _, _ => none
  | fuel+1, t1, t2, oc, env =>
    match t1 with
    | .var v =>
      match Env.resolve env (.var v) with
      | .var v' =>
        match Env.resolve env t2 with
        | .var w =>
          if v' = w then some (env, true)
          else if oc && containsF fuel (.var w) v' env then some (env, false)
          else some (Env.bind env v' (.var w), true)
        | t' =>
          if oc && containsF fuel t' v' env then some (env, false)
          else some (Env.bind env v' t', true)
      | r => unifyF fuel r (Env.resolve env t2) oc env
    | .atom a =>
      match Env.resolve env t2 with
      | .atom b => some (env, a = b)
      | .var w => unifyF fuel (.var w) (.atom a) oc env
      | _ => some (env, false)
    | .int n =>
      match Env.resolve env t2 with
      | .int m => some (env, n = m)
      | .var w => unifyF fuel (.var w) (.int n) oc env
      | _ => some (env, false)
    | .float p =>
      match Env.resolve env t2 with
      | .float q => some (env, p = q)
      | .var w => unifyF fuel (.var w) (.float p) oc env
      | _ => some (env, false)
    | .comp f as =>
      match Env.resolve env t2 with
      | .comp g bs =>
        if f = g then
          if as.length = bs.length then unifyListF fuel as bs oc env
          else some (env, false)
        else some (env, false)
      | .var w => unifyF fuel (.var w) (.comp f as) oc env
      | _ => some (env, false)

/-- Pairwise argument unification of `Compound.Unify`: left-to-right, threading
the environment, stopping at the first failure.  (Only reached with equal
lengths; the short arms mirror the loop over the left list.) -/
def unifyListF : Nat → List Term → List Term → Bool → Env → Option (Env × Bool)
  | 0, _, _, _, _ => none
  | _+1, [], _, _, env => some (env, true)
  | _+1, _ :: _, [], _, env => some (env, true)
  | fuel+1, a :: as, b :: bs, oc, env =>
    match unifyF fuel a b oc env with
    | none => none
    | some (env', false) => some (env', false)
    | some (env', true) => unifyListF fuel as bs oc env'

end

/-- Byte-wise comparison of `strings.Compare`, written out on the character
code points (UTF-8 byte order and code-point order agree). -/
def lexCmp : List Char → List Char → Int
  | [], [] => 0
  | [], _ :: _ => -1
  | _ :: _, [] => 1
  | a :: as, b :: bs =>
    if a < b then -1
    else if b < a then 1
    else lexCmp as bs

mutual

/-- Standard order of terms on resolved terms.  The variable rows are
`Variable.Compare` from `src/unnamed/part_000` lines 550-563 (variables
compare by `strings.Compare` on their names and precede every non-variable);
the number, atom and compound rows are modelled from the spec (their `Compare`
methods are not part of the snapshot): numeric value decides between numbers
with Float before Integer at equal value, atoms compare lexicographically by
character codes, compounds compare arity first, then the functor, then the
arguments left-to-right. -/
def Compare : Term → Term → Int
  | .var v, .var w => lexCmp v.data w.data
  | .var _, _ => -1
  | _, .var _ => 1
  | .int m, .int n => if m < n then -1 else if n < m then 1 else 0
  | .int m, .float q => if (m : ℚ) < q then -1 else if q < (m : ℚ) then 1 else 1
  | .float p, .int n => if p < (n : ℚ) then -1 else if (n : ℚ) < p then 1 else -1
  | .float p, .float q => if p < q then -1 else if q < p then 1 else 0
  | .int _, _ => -1
  | .float _, _ => -1
  | _, .int _ => 1
  | _, .float _ => 1
  | .atom a, .atom b => lexCmp a.data b.data
  | .atom _, .comp _ _ => -1
  | .comp _ _, .atom _ => 1
  | .comp f as, .comp g bs =>
    if as.length < bs.length then -1
    else if bs.length < as.length then 1
    else
      let c := lexCmp f.data g.data
      if c = 0 then CompareList as bs else c

/-- Left-to-right comparison of compound arguments: the first non-equal pair
decides. -/
def CompareList : List Term → List Term → Int
  | [], _ => 0
  | _, [] => 0
  | a :: as, b :: bs =>
    let c := Compare a b
    if c = 0 then CompareList as bs else c

end

/-- `Variable.Compare` from `src/unnamed/part_000` lines 550-563: resolve the
variable; while it stays a variable, a variable on the right compares by name
and anything else is greater; a resolved non-variable delegates to the
standard order on resolved terms. -/
def Variable.Compare (v : String) (t : Term) (env : Env) : Int :=
  match Env.resolve env (.var v) with
  | .var v' =>
    match Env.resolve env t with
    | .var w => lexCmp v'.data w.data
    | _ => -1
  | r => Prolog.En.Compare r (Env.resolve env t)

/-- Decimal rendering of a natural number, modelling `fmt.Sprintf`'s `%d`
via the base-10 digit list. -/
def natChars : Nat → List Char
  | 0 => ['0']
  | n+1 => ((Nat.digits 10 (n+1)).reverse.map Nat.digitChar)

/-- `NewVariable` from `src/unnamed/part_000` lines 504-508: atomically
increment the global `uint64` counter (modelled by the explicit state and the
`2^64` wrap) and name the fresh variable `_<counter>`. -/
def NewVariable (c : Nat) : String × Nat :=
  let c' := (c + 1) % (2 ^ 64)
  (String.mk ('_' :: natChars c'), c')

/-! Error terms.  The source wraps every formal error term as
`error(Formal, ContextMessageAtom)` (visible in the `TestFunctor` assertions of
`src/unnamed/part_002`); the context atom is an informational message, so the
builders below model only the formal part, which is all the claims constrain. -/

/-- Modelled from the spec: the formal part of `instantiation_error`. -/
def instantiationErrorT : Term := .atom "instantiation_error"

/-- Modelled from the spec: the formal part of `type_error(integer, Culprit)`. -/
def typeErrorInteger (culprit : Term) : Term :=
  .comp "type_error" [.atom "integer", culprit]

/-- Modelled from the spec: the formal part of `type_error(atom, Culprit)`. -/
def typeErrorAtom (culprit : Term) : Term :=
  .comp "type_error" [.atom "atom", culprit]

/-- Modelled from the spec: the formal part of `type_error(callable, Culprit)`. -/
def typeErrorCallable (culprit : Term) : Term :=
  .comp "type_error" [.atom "callable", culprit]

/-- Modelled from the spec: the formal part of
`type_error(evaluable, Name/Arity)`. -/
def typeErrorEvaluable (name : String) (arity : Nat) : Term :=
  .comp "type_error" [.atom "evaluable", .comp "/" [.atom name, .int arity]]

/-- Modelled from the spec: the formal part of
`evaluation_error(zero_divisor)`. -/
def evaluationErrorZeroDivisor : Term :=
  .comp "evaluation_error" [.atom "zero_divisor"]

/-- Modelled from the spec: the formal part of
`domain_error(operator_priority, Culprit)`. -/
def domainErrorOperatorPriority (culprit : Term) : Term :=
  .comp "domain_error" [.atom "operator_priority", culprit]

/-- Modelled from the spec: the formal part of
`domain_error(operator_specifier, Culprit)`. -/
def domainErrorOperatorSpecifier (culprit : Term) : Term :=
  .comp "domain_error" [.atom "operator_specifier", culprit]

/-- Modelled from the spec: the formal part of
`existence_error(procedure, Culprit)`, built by `existenceErrorProcedure`. -/
def existenceErrorProcedure (culprit : Term) : Term :=
  .comp "existence_error" [.atom "procedure", culprit]

/-- Modelled from the spec: the formal part of
`permission_error(modify, static_procedure, Culprit)`. -/
def permissionErrorModifyStaticProcedure (culprit : Term) : Term :=
  .comp "permission_error" [.atom "modify", .atom "static_procedure", culprit]

/-- Is the term a numeric zero? -/
def isZeroT : Term → Bool
  | .int n => n = 0
  | .float q => q = 0
  | _ => false

/-- Numeric value of an evaluated term (evaluation only produces `.int` and
`.float` results; the default is never reached from them). -/
def toQ : Term → ℚ
  | .int n => (n : ℚ)
  | .float q => q
  | _ => 0

/-- Modelled from the spec: the arithmetic evaluator behind
`DefaultFunctionSet.Is` (§4.G); its implementation file is not part of the
snapshot, and `TestFunctionSet_Is` in `src/unnamed/part_002` pins the
behavior used here: `+`, `-`, `*` promote to Float when either operand is a
Float; `/` is floating-point division (`4/2` evaluates to `Float(2)`) and a
zero divisor raises `evaluation_error(zero_divisor)` (spec §4.G); `//` demands
Integer operands, raising `type_error(integer, Culprit)` on the leftmost
Float, and raises `evaluation_error(zero_divisor)` on a zero divisor; an
unbound sub-expression raises `instantiation_error`; any other shape raises
`type_error(evaluable, F/N)`.  Arguments evaluate left to right, depth
first. -/
def evalArith : Term → Except Term Term
  | .int n => .ok (.int n)
  | .float q => .ok (.float q)
  | .var _ => .error instantiationErrorT
  | .atom a => .error (typeErrorEvaluable a 0)
  | .comp f args =>
    match f, args with
    | "+", [a, b] =>
      match evalArith a with
      | .error e => .error e
      | .ok x =>
        match evalArith b with
        | .error e => .error e
        | .ok y =>
          match x, y with
          | .int m, .int n => .ok (.int (m + n))
          | x, y => .ok (.float (toQ x + toQ y))
    | "-", [a, b] =>
      match evalArith a with
      | .error e => .error e
      | .ok x =>
        match evalArith b with
        | .error e => .error e
        | .ok y =>
          match x, y with
          | .int m, .int n => .ok (.int (m - n))
          | x, y => .ok (.float (toQ x - toQ y))
    | "*", [a, b] =>
      match evalArith a with
      | .error e => .error e
      | .ok x =>
        match evalArith b with
        | .error e => .error e
        | .ok y =>
          match x, y with
          | .int m, .int n => .ok (.int (m * n))
          | x, y => .ok (.float (toQ x * toQ y))
    | "/", [a, b] =>
      match evalArith a with
      | .error e => .error e
      | .ok x =>
        match evalArith b with
        | .error e => .error e
        | .ok y =>
          if isZeroT y then .error evaluationErrorZeroDivisor
          else .ok (.float (toQ x / toQ y))
    | "//", [a, b] =>
      match evalArith a with
      | .error e => .error e
      | .ok x =>
        match evalArith b with
        | .error e => .error e
        | .ok y =>
          match x, y with
          | .int m, .int n =>
            if n = 0 then .error evaluationErrorZeroDivisor
            else .ok (.int (Int.tdiv m n))
          | .int _, y => .error (typeErrorInteger y)
          | x, _ => .error (typeErrorInteger x)
    | "-", [a] =>
      match evalArith a with
      | .error e => .error e
      | .ok x =>
        match x with
        | .int m => .ok (.int (-m))
        | x => .ok (.float (-(toQ x)))
    | f, args => .error (typeErrorEvaluable f args.length)

/-- Operator table entry, from the `Operators` literals of `TestEngine_Op` in
`src/unnamed/part_002`. -/
structure operator where
  Priority : Int
  Specifier : String
  Name : String

abbrev Operators := List operator

/-- The seven operator associativity specifiers. -/
def validSpecifier (s : String) : Bool :=
  s = "xf" || s = "yf" || s = "xfx" || s = "xfy" || s = "yfx" || s = "fx" || s = "fy"

/-- Remove the table entries for this operator name and specifier. -/
def opRemove (ops : Operators) (name spec : String) : Operators :=
  ops.filter fun o => !(o.Name = name && o.Specifier = spec)

/-- Insert keeping the table ordered by priority (ascending, matching the
`TestEngine_Op` insert scenario: `1000` lands between `900` and `1100`). -/
def opInsert (ops : Operators) (o : operator) : Operators :=
  match ops with
  | [] => [o]
  | p :: rest =>
    if p.Priority ≤ o.Priority then p :: opInsert rest o
    else o :: p :: rest

/-- Modelled from the spec: `op/3` (its implementation file is not part of the
snapshot); argument checking and the resulting table are pinned by
`TestEngine_Op` in `src/unnamed/part_002` lines 493-615: a non-integer
priority raises `type_error(integer)`, a priority outside `0..1200` raises
`domain_error(operator_priority)`, a non-atom specifier raises
`type_error(atom)`, a non-specifier atom raises
`domain_error(operator_specifier)`, a non-atom operator name raises
`type_error(atom)`; priority `0` removes the matching entry, any other
priority (re)inserts keeping the table ordered by priority ascending. -/
def Op (ops : Operators) (priority specifier opName : Term) : Except Term Operators :=
  match priority with
  | .int p =>
    if p < 0 || 1200 < p then .error (domainErrorOperatorPriority (.int p))
    else
      match specifier with
      | .atom s =>
        if !(validSpecifier s) then .error (domainErrorOperatorSpecifier (.atom s))
        else
          match opName with
          | .atom name =>
            let removed := opRemove ops name s
            if p = 0 then .ok removed
            else .ok (opInsert removed ⟨p, s, name⟩)
          | t => .error (typeErrorAtom t)
      | t => .error (typeErrorAtom t)
  | t => .error (typeErrorInteger t)

/-- `ProcedureIndicator` from `src/unnamed/part_000` lines 420-423. -/
structure ProcedureIndicator where
  Name : String
  Arity : Int
  deriving DecidableEq

/-- `ProcedureIndicator.Term` from `src/unnamed/part_000` lines 459-468:
the `Name/Arity` compound. -/
def ProcedureIndicator.toTerm (p : ProcedureIndicator) : Term :=
  .comp "/" [.atom p.Name, .int p.Arity]

/-- A database procedure: either a native built-in predicate (the
`predicate0..predicate5` wrappers of `src/unnamed/part_000`; static), or an
ordered list of user clauses (dynamic), each stored as its source term. -/
inductive procedure where
  | native (arity : Nat)
  | clauses (cs : List Term)

/-- The `procedures` map, as an association list. -/
def lookupProc : List (ProcedureIndicator × procedure) → ProcedureIndicator → Option procedure
  | [], _ => none
  | (q, p) :: rest, pi' => if q = pi' then some p else lookupProc rest pi'

/-- Replace the procedure stored for an indicator, or append it. -/
def setProc :
    List (ProcedureIndicator × procedure) → ProcedureIndicator → procedure →
    List (ProcedureIndicator × procedure)
  | [], pi', p => [(pi', p)]
  | (q, r) :: rest, pi', p =>
    if q = pi' then (pi', p) :: rest else (q, r) :: setProc rest pi' p

/-- `unknownAction` from `src/unnamed/part_000` lines 102-109 (iota order:
error, fail, warning). -/
inductive unknownAction where
  | unknownError
  | unknownFail
  | unknownWarning

/-- The promise returned by `VM.Arrive`, defunctionalized: `Delayed` stands
for the `Delay` around `p.Call(vm, args, k, env)`, `ErrorT` for an `Error`
promise carrying an exception term, `BoolP` for a `Bool` promise. -/
inductive ArrivePromise where
  | Delayed (p : procedure) (args : List Term)
  | ErrorT (e : Term)
  | BoolP (b : Bool)

/-- `VM.Arrive` from `src/unnamed/part_000` lines 124-147.  The returned
number counts the `OnUnknown` callback invocations.  (The Go `default` arm
returning a `SystemError` is unreachable for the three `unknownAction`
values and has no counterpart here.) -/
def Arrive (procs : List (ProcedureIndicator × procedure)) (unknown : unknownAction)
    (pi' : ProcedureIndicator) (args : List Term) : ArrivePromise × Nat :=
  match lookupProc procs pi' with
  | some p => (.Delayed p args, 0)
  | none =>
    match unknown with
    | .unknownError => (.ErrorT (existenceErrorProcedure pi'.toTerm), 0)
    | .unknownWarning => (.BoolP false, 1)
    | .unknownFail => (.BoolP false, 0)

/-- The procedure indicator of a clause to be asserted: for a rule
`Head :- Body` the indicator of `Head`, otherwise of the clause itself
(mirroring `piArgs` of `src/unnamed/part_000` lines 478-489: an atom has
arity 0, a compound its argument count, a variable raises
`instantiation_error` and anything else `type_error(callable)`). -/
def piOfClause (t : Term) : Except Term ProcedureIndicator :=
  let head := match t with
    | .comp ":-" [h, _] => h
    | t => t
  match head with
  | .atom a => .ok ⟨a, 0⟩
  | .comp f args => .ok ⟨f, (args.length : Int)⟩
  | .var _ => .error instantiationErrorT
  | other => .error (typeErrorCallable other)

/-- Modelled from the spec: `assertz/1` (its implementation file is not part
of the snapshot; `TestEngine_Assertz` in `src/unnamed/part_002` lines
1320-1472 pins the behavior): the clause is appended after the existing
clauses of its procedure, and a procedure that is a native built-in raises
`permission_error(modify, static_procedure, Name/Arity)`. -/
def Assertz (procs : List (ProcedureIndicator × procedure)) (t : Term) :
    Except Term (List (ProcedureIndicator × procedure)) :=
  match piOfClause t with
  | .error e => .error e
  | .ok pi' =>
    match lookupProc procs pi' with
    | some (.native _) => .error (permissionErrorModifyStaticProcedure pi'.toTerm)
    | some (.clauses cs) => .ok (setProc procs pi' (.clauses (cs ++ [t])))
    | none => .ok (setProc procs pi' (.clauses [t]))

/-- Modelled from the spec: `asserta/1` (its implementation file is not part
of the snapshot; `TestEngine_Asserta` in `src/unnamed/part_002` lines
1474-1507 pins the behavior): the clause is prepended before the existing
clauses, with the same static-procedure guard as `assertz/1`. -/
def Asserta (procs : List (ProcedureIndicator × procedure)) (t : Term) :
    Except Term (List (ProcedureIndicator × procedure)) :=
  match piOfClause t with
  | .error e => .error e
  | .ok pi' =>
    match lookupProc procs pi' with
    | some (.native _) => .error (permissionErrorModifyStaticProcedure pi'.toTerm)
    | some (.clauses cs) => .ok (setProc procs pi' (.clauses (t :: cs)))
    | none => .ok (setProc procs pi' (.clauses [t]))

/-- The clause list a database update left for an indicator (`none` when the
update failed or the procedure is absent or built-in). -/
def assertedClauses (r : Except Term (List (ProcedureIndicator × procedure)))
    (pi' : ProcedureIndicator) : Option (List Term) :=
  match r with
  | .error _ => none
  | .ok procs =>
    match lookupProc procs pi' with
    | some (.clauses cs) => some cs
    | _ => none

/-- The opcode set of `src/unnamed/part_000` lines 18-30. -/
inductive opcode where
  | opEnter
  | opCall
  | opExit
  | opConst
  | opVar
  | opFunctor
  | opPop
  | opCut

/-- An instruction, from `src/unnamed/part_000` lines 11-14 (the operand is a
byte used as a table index). -/
structure instruction where
  opcode : opcode
  operand : Nat

/-- The VM registers of `src/unnamed/part_000` lines 149-159.  The success
continuation `cont` and the cut parent promise are defunctionalized: `exec`
returns a descriptor naming them instead of invoking closures, and `vc`
carries the global `varCounter` consumed by the `NewVariable` calls of the
handlers. -/
structure registers where
  pc : List instruction
  xr : List Term
  vars : List String
  piT : List ProcedureIndicator
  args : Term
  astack : Term
  env : Env
  vc : Nat
  cutParent : Nat

/-- The promise returned by `VM.exec`, defunctionalized: `boolP false` is the
`Bool(false)` promise of a failed unification, `errorT` an `Error` promise
carrying an exception term (from `execFunctor`), `errHost` an `Error` promise
carrying a host error (the non-exit end of bytecode), `delayedCall` the
`Delay` returned by `execCall` (carrying the registers its closure captured),
`contP` the `r.cont(r.env)` invocation of `execExit`, `cutP` the `Cut`
promise of `execCut`.  `panicked` marks a Go runtime panic (a table index out
of range), and `hung` marks a unification on which the source would not
return within the fuel. -/
inductive ExecResult where
  | boolP (b : Bool)
  | errorT (e : Term)
  | errHost (msg : String)
  | delayedCall (pi' : ProcedureIndicator) (r : registers)
  | contP (env : Env)
  | cutP (parent : Nat) (r : registers)
  | panicked
  | hung

/-- A run of fresh generated variables. -/
def freshN : Nat → Nat → List String × Nat
  | 0, vc => ([], vc)
  | k+1, vc =>
    let (v, vc1) := NewVariable vc
    let (vs, vc2) := freshN k vc1
    (v :: vs, vc2)

/-- The `'.'`-list term over the given elements. -/
def listTerm : List Term → Term
  | [] => .atom "[]"
  | t :: ts => .comp "." [t, listTerm ts]

/-- Modelled from the spec: `functor/3` as used by `execFunctor` (its
implementation file is not part of the snapshot; `TestFunctor` in
`src/unnamed/part_002` pins the error terms).  `name`/`arity` are the concrete
atom and integer of a compiled procedure indicator.  A variable target with a
negative arity raises `domain_error(not_less_than_zero)`; with arity `0` it
unifies with the atom, otherwise with `name(_1, ..., _arity)` over fresh
variables.  A non-variable target succeeds exactly when its principal functor
and arity match.  The outer `Option` is the unification fuel. -/
def Functor (uf : Nat) (t : Term) (name : String) (arity : Int) (env : Env) (vc : Nat) :
    Option (Except Term (Option (Env × Nat))) :=
  match Env.resolve env t with
  | .var v =>
    if arity < 0 then
      some (.error (.comp "domain_error" [.atom "not_less_than_zero", .int arity]))
    else if arity = 0 then
      match unifyF uf (.var v) (.atom name) false env with
      | none => none
      | some (env', ok) => some (.ok (if ok then some (env', vc) else none))
    else
      let (vs, vc') := freshN arity.toNat vc
      match unifyF uf (.var v) (.comp name (vs.map Term.var)) false env with
      | none => none
      | some (env', ok) => some (.ok (if ok then some (env', vc') else none))
  | .comp f args =>
    some (.ok (if name = f ∧ arity = (args.length : Int) then some (env, vc) else none))
  | .atom b => some (.ok (if name = b ∧ arity = 0 then some (env, vc) else none))
  | _ => some (.ok none)

/-- Walk a `'.'`-list term into its elements, resolving the spine (mirrors
`Slice`/`EachList`; modelled from the spec).  A variable tail raises
`instantiation_error`, a non-list tail `type_error(list)`. -/
def listSlice : Nat → Term → Env → Option (Except Term (List Term))
  | 0, _, _ => none
  | fuel+1, t, env =>
    match Env.resolve env t with
    | .atom "[]" => some (.ok [])
    | .comp "." [h, tl] =>
      match listSlice fuel tl env with
      | none => none
      | some (.error e) => some (.error e)
      | some (.ok rest) => some (.ok (h :: rest))
    | .var _ => some (.error instantiationErrorT)
    | other => some (.error (.comp "type_error" [.atom "list", other]))

/-- Modelled from the spec: `=../2` as used by `execFunctor` (its
implementation file is not part of the snapshot; `TestUniv` in
`src/unnamed/part_002` pins the error terms).  A non-variable target unifies
the list argument with `[Functor | Args]`; a variable target is built from
the fully instantiated list, whose head must be an atom unless it is the only
element. -/
def Univ (uf : Nat) (t list : Term) (env : Env) : Option (Except Term (Option Env)) :=
  match Env.resolve env t with
  | .comp f args =>
    match unifyF uf list (listTerm (.atom f :: args)) false env with
    | none => none
    | some (env', ok) => some (.ok (if ok then some env' else none))
  | .var v =>
    match listSlice uf list env with
    | none => none
    | some (.error e) => some (.error e)
    | some (.ok []) =>
      some (.error (.comp "domain_error" [.atom "not_empty_list", .atom "[]"]))
    | some (.ok [x]) =>
      match unifyF uf (.var v) (Env.resolve env x) false env with
      | none => none
      | some (env', ok) => some (.ok (if ok then some env' else none))
    | some (.ok (x :: xs)) =>
      match Env.resolve env x with
      | .atom f =>
        match unifyF uf (.var v) (.comp f xs) false env with
        | none => none
        | some (env', ok) => some (.ok (if ok then some env' else none))
      | .var _ => some (.error instantiationErrorT)
      | other => some (.error (typeErrorAtom other))
  | a =>
    match unifyF uf list (listTerm [a]) false env with
    | none => none
    | some (env', ok) => some (.ok (if ok then some env' else none))

/-- `VM.execConst` from `src/unnamed/part_000` lines 182-197: look the
constant up in the `xr` table (a Go index panic when the operand is out of
range), unify the argument register with `'.'(x, ARest)` over a fresh `ARest`,
fail the clause on mismatch, else continue with `args := ARest`. -/
def execConst (uf : Nat) (operand : Nat) (r : registers) : ExecResult ⊕ registers :=
  match r.xr.get? operand with
  | none => .inl .panicked
  | some x =>
    let arest := (NewVariable r.vc).1
    match unifyF uf r.args (.comp "." [x, .var arest]) false r.env with
    | none => .inl .hung
    | some (_, false) => .inl (.boolP false)
    | some (env', true) =>
      .inr { r with args := .var arest, env := env', vc := (NewVariable r.vc).2 }

/-- `VM.execVar` from `src/unnamed/part_000` lines 199-214: like `execConst`
but over the `vars` table, and unifying `'.'(v, ARest)` against the argument
register (the operands of `Unify` are swapped relative to `execConst`). -/
def execVar (uf : Nat) (operand : Nat) (r : registers) : ExecResult ⊕ registers :=
  match r.vars.get? operand with
  | none => .inl .panicked
  | some v =>
    let arest := (NewVariable r.vc).1
    match unifyF uf (.comp "." [.var v, .var arest]) r.args false r.env with
    | none => .inl .hung
    | some (_, false) => .inl (.boolP false)
    | some (env', true) =>
      .inr { r with args := .var arest, env := env', vc := (NewVariable r.vc).2 }

/-- `VM.execFunctor` from `src/unnamed/part_000` lines 216-256: look the
indicator up in the `pi` table, unify the argument register with
`'.'(Arg, ARest)`, check `functor(Arg, Name, Arity)`, bind a fresh argument
register and split `Arg =.. [Name | args]`, pushing `ARest` onto the
argument stack; a `Force` error of either builtin becomes an `Error`
promise. -/
def execFunctor (uf : Nat) (operand : Nat) (r : registers) : ExecResult ⊕ registers :=
  match r.piT.get? operand with
  | none => .inl .panicked
  | some pi' =>
    let arg := (NewVariable r.vc).1
    let arest := (NewVariable (NewVariable r.vc).2).1
    match unifyF uf r.args (.comp "." [.var arg, .var arest]) false r.env with
    | none => .inl .hung
    | some (_, false) => .inl (.boolP false)
    | some (env1, true) =>
      match Functor uf (.var arg) pi'.Name pi'.Arity env1 (NewVariable (NewVariable r.vc).2).2 with
      | none => .inl .hung
      | some (.error e) => .inl (.errorT e)
      | some (.ok none) => .inl (.boolP false)
      | some (.ok (some (env2, vc3))) =>
        let args' := (NewVariable vc3).1
        match Univ uf (.var arg) (.comp "." [.atom pi'.Name, .var args']) env2 with
        | none => .inl .hung
        | some (.error e) => .inl (.errorT e)
        | some (.ok none) => .inl (.boolP false)
        | some (.ok (some env3)) =>
          .inr { r with
                 args := Term.var args'
                 astack := Term.comp "." [Term.var arest, r.astack]
                 env := env3
                 vc := (NewVariable vc3).2 }

/-- `VM.execPop` from `src/unnamed/part_000` lines 258-277: the argument
register must be exhausted (`[]`); pop the argument stack into a fresh
head/tail pair and continue matching the head. -/
def execPop (uf : Nat) (_operand : Nat) (r : registers) : ExecResult ⊕ registers :=
  match unifyF uf r.args (.atom "[]") false r.env with
  | none => .inl .hung
  | some (_, false) => .inl (.boolP false)
  | some (env1, true) =>
    let a := (NewVariable r.vc).1
    let arest := (NewVariable (NewVariable r.vc).2).1
    match unifyF uf r.astack (.comp "." [.var a, .var arest]) false env1 with
    | none => .inl .hung
    | some (_, false) => .inl (.boolP false)
    | some (env2, true) =>
      .inr { r with
             args := .var a
             astack := .var arest
             env := env2
             vc := (NewVariable (NewVariable r.vc).2).2 }

/-- `VM.execEnter` from `src/unnamed/part_000` lines 279-294: both the
argument register and the argument stack must be exhausted; a single fresh
variable becomes both. -/
def execEnter (uf : Nat) (_operand : Nat) (r : registers) : ExecResult ⊕ registers :=
  match unifyF uf r.args (.atom "[]") false r.env with
  | none => .inl .hung
  | some (_, false) => .inl (.boolP false)
  | some (env1, true) =>
    match unifyF uf r.astack (.atom "[]") false env1 with
    | none => .inl .hung
    | some (_, false) => .inl (.boolP false)
    | some (env2, true) =>
      .inr { r with
             args := .var (NewVariable r.vc).1
             astack := .var (NewVariable r.vc).1
             env := env2
             vc := (NewVariable r.vc).2 }

/-- `VM.execCall` from `src/unnamed/part_000` lines 296-325: look the callee
indicator up in the `pi` table, require the argument register exhausted, and
return the `Delay` promise whose closure captured the advanced registers
(`rest` is already the advanced program counter). -/
def execCall (uf : Nat) (operand : Nat) (rest : List instruction) (r : registers) :
    ExecResult ⊕ registers :=
  match r.piT.get? operand with
  | none => .inl .panicked
  | some pi' =>
    match unifyF uf r.args (.atom "[]") false r.env with
    | none => .inl .hung
    | some (_, false) => .inl (.boolP false)
    | some (env', true) => .inl (.delayedCall pi' { r with pc := rest, env := env' })

/-- `VM.execExit` from `src/unnamed/part_000` lines 327-329: fire the success
continuation on the current environment. -/
def execExit (_uf : Nat) (_operand : Nat) (r : registers) : ExecResult ⊕ registers :=
  .inl (.contP r.env)

/-- `VM.execCut` from `src/unnamed/part_000` lines 331-347: return the `Cut`
promise against the inherited cut parent, its closure capturing the advanced
registers. -/
def execCut (_uf : Nat) (_operand : Nat) (rest : List instruction) (r : registers) :
    ExecResult ⊕ registers :=
  .inl (.cutP r.cutParent { r with pc := rest })

/-- One dispatch through the jump table of `VM.exec` (`src/unnamed/part_000`
lines 162-171). -/
def stepInstr (uf : Nat) (i : instruction) (rest : List instruction) (r : registers) :
    ExecResult ⊕ registers :=
  match i.opcode with
  | .opConst => execConst uf i.operand r
  | .opVar => execVar uf i.operand r
  | .opFunctor => execFunctor uf i.operand r
  | .opPop => execPop uf i.operand r
  | .opEnter => execEnter uf i.operand r
  | .opCall => execCall uf i.operand rest r
  | .opExit => execExit uf i.operand r
  | .opCut => execCut uf i.operand rest r

/-- The loop of `VM.exec`, structurally recursive on the program counter
(which the registers mirror at every call). -/
def execAux (uf : Nat) : List instruction → registers → ExecResult
  | [], _ => .errHost "non-exit end of bytecode"
  | i :: rest, r =>
    match stepInstr uf i rest r with
    | .inl p => p
    | .inr r' => execAux uf rest { r' with pc := rest }

/-- `VM.exec` from `src/unnamed/part_000` lines 161-180: run handlers while
the program counter is non-empty; a handler either returns a promise or
consumes its instruction and continues; an empty program counter without an
`Exit` returns the `non-exit end of bytecode` error promise. -/
def exec (uf : Nat) (r : registers) : ExecResult :=
  execAux uf r.pc r

/-- An instruction's operand is in range of the table its opcode indexes. -/
def instrWF (xrN varsN piN : Nat) (i : instruction) : Prop :=
  match i.opcode with
  | .opConst => i.operand < xrN
  | .opVar => i.operand < varsN
  | .opFunctor => i.operand < piN
  | .opCall => i.operand < piN
  | _ => True

/-- Every instruction of the program counter is in range of the register
tables. -/
def regsWF (r : registers) : Prop :=
  ∀ i ∈ r.pc, instrWF r.xr.length r.vars.length r.piT.length i

/-- A promise that one of the opcode handlers produced: a unification
failure, a `Functor`/`Univ` error, a `Call` delay, an `Exit` continuation or
a `Cut`. -/
def handlerPromise : ExecResult → Prop
  | .boolP _ => True
  | .errorT _ => True
  | .delayedCall _ _ => True
  | .contP _ => True
  | .cutP _ _ => True
  | _ => False

/-- A register state whose single `Const` instruction indexes the empty `xr`
table — `r.xr[0]` is a Go index-out-of-range panic. -/
def badRegs : registers :=
  { pc := [⟨.opConst, 0⟩], xr := [], vars := [], piT := [],
    args := .atom "[]", astack := .atom "[]", env := [], vc := 0, cutParent := 0 }

end En

namespace Old

/-- Term model of `src/term.go`: `Atom`, `Integer`, `*Variable`, `*Compound`.
A `*Variable` is a mutable heap cell; here a cell is a numeric identity (the
pointer) whose optional `Ref` binding lives in the `Heap` below.  The `Name`
field of a `Variable` plays no role in `Unify`, `Copy` or `Contains` and is
omitted. -/
inductive Term where
  | atom (a : String)
  | int (n : Int)
  | var (id : Nat)
  | comp (f : String) (args : List Term)

/-- The mutable store backing `src/term.go`'s `*Variable` cells: `ref`
records the `Ref` field of each allocated cell (missing entry = `nil`), and
`next` is the allocator for fresh `&Variable{}` cells. -/
structure Heap where
  ref : List (Nat × Term)
  next : Nat

/-- Association lookup over the cell store. -/
def refLookup (v : Nat) : List (Nat × Term) → Option Term
  | [] => none
  | (w, t) :: rest => if w = v then some t else refLookup v rest

/-- Read a cell's `Ref` field. -/
def Heap.get (h : Heap) (v : Nat) : Option Term :=
  refLookup v h.ref

/-- Write a cell's `Ref` field. -/
def Heap.set (h : Heap) (v : Nat) (t : Term) : Heap :=
  { h with ref := (v, t) :: h.ref }

/-- Allocate a fresh unbound `&Variable{}` cell. -/
def Heap.fresh (h : Heap) : Nat × Heap :=
  (h.next, { h with next := h.next + 1 })

/-- `Contains` from `src/term.go` lines 260-283: a variable cell contains `s`
if it is `s` itself or its `Ref` does; a compound contains `s` if `s` is its
functor atom or an argument contains it; atoms and integers contain only
themselves.  Fuel-indexed: following `Ref` chains through cells made cyclic by
occurs-check-free unification need not terminate. -/
def Contains : Nat → Term → Term → Heap → Bool
  | 0, _, _, _ => false
  | fuel+1, t, s, h =>
    match t with
    | .var v =>
      (match s with | .var w => v = w | _ => false) ||
      (match h.get v with
       | none => false
       | some r => Contains fuel r s h)
    | .comp f args =>
      (match s with | .atom a => f = a | _ => false) ||
      args.any fun a => Contains fuel a s h
    | .atom a => (match s with | .atom b => a = b | _ => false)
    | .int n => (match s with | .int m => n = m | _ => false)

mutual

/-- `Unify` of `src/term.go`: the `.var` arm is `Variable.Unify` (lines
98-111) — when the occurs check is on, fail if the right side contains this
very cell (the check precedes everything, including the bound and the
self-unification case); a bound cell delegates to its `Ref`; binding an
unbound cell to an unbound cell allocates a shared fresh cell and points both
at it; otherwise the cell's `Ref` becomes the right side.  The `.atom`/`.int`
arms are `Atom.Unify`/`Integer.Unify` (lines 26-35, 51-60): identity on equal
kinds, delegation to `Variable.Unify` on a variable, failure otherwise.  The
`.comp` arm is `Compound.Unify` (lines 186-206): functors and arities must
agree and the arguments unify pairwise left-to-right.  Results `(ok, heap)`
keep the mutations performed so far even on failure, exactly as the Go code
mutates `Ref` fields in place; `none` is fuel exhaustion, marking a call on
which the source recurses forever. -/
def Unify : Nat → Term → Term → Bool → Heap → Option (Bool × Heap)
  | 0, _, _, _, _ => none
  | fuel+1, t1, t2, oc, h =>
    match t1 with
    | .atom a =>
      match t2 with
      | .atom b => some (a = b, h)
      | .var w => Unify fuel (.var w) (.atom a) oc h
      | _ => some (false, h)
    | .int n =>
      match t2 with
      | .int m => some (n = m, h)
      | .var w => Unify fuel (.var w) (.int n) oc h
      | _ => some (false, h)
    | .var v =>
      if oc && Contains fuel t2 (.var v) h then some (false, h)
      else
        match h.get v with
        | some r => Unify fuel r t2 oc h
        | none =>
          match t2 with
          | .var w =>
            match h.get w with
            | none =>
              let (z, h1) := h.fresh
              some (true, (h1.set w (.var z)).set v (.var z))
            | some _ => some (true, h.set v (.var w))
          | _ => some (true, h.set v t2)
    | .comp f as =>
      match t2 with
      | .comp g bs =>
        if f = g then
          if as.length = bs.length then UnifyList fuel as bs oc h
          else some (false, h)
        else some (false, h)
      | .var w => Unify fuel (.var w) (.comp f as) oc h
      | _ => some (false, h)

/-- The argument loop of `Compound.Unify`: left-to-right, stopping at the
first failure, keeping the mutations already performed.  (Only reached with
equal lengths.) -/
def UnifyList : Nat → List Term → List Term → Bool → Heap → Option (Bool × Heap)
  | 0, _, _, _, _ => none
  | _+1, [], _, _, h => some (true, h)
  | _+1, _ :: _, [], _, h => some (true, h)
  | fuel+1, a :: as, b :: bs, oc, h =>
    match Unify fuel a b oc h with
    | none => none
    | some (false, h') => some (false, h')
    | some (true, h') => UnifyList fuel as bs oc h'

end

mutual

/-- `Copy` of `src/term.go`: atoms and integers copy to themselves
(lines 37-39, 62-64); `Variable.Copy` (lines 113-118) allocates a fresh
unbound cell for an unbound cell and a fresh cell whose `Ref` is the copied
binding for a bound one — each occurrence separately; `Compound.Copy`
(lines 208-217) rebuilds the compound over copies of the arguments,
left-to-right.  Fuel-indexed for `Ref` chains. -/
def Copy : Nat → Term → Heap → Option (Term × Heap)
  | 0, _, _ => none
  | fuel+1, t, h =>
    match t with
    | .atom a => some (.atom a, h)
    | .int n => some (.int n, h)
    | .var v =>
      match h.get v with
      | none =>
        let (z, h1) := h.fresh
        some (.var z, h1)
      | some r =>
        match Copy fuel r h with
        | none => none
        | some (r', h1) =>
          let (z, h2) := h1.fresh
          some (.var z, h2.set z r')
    | .comp f args =>
      match CopyList fuel args h with
      | none => none
      | some (args', h1) => some (.comp f args', h1)

/-- The argument loop of `Compound.Copy`. -/
def CopyList : Nat → List Term → Heap → Option (List Term × Heap)
  | 0, _, _ => none
  | _+1, [], h => some ([], h)
  | fuel+1, t :: ts, h =>
    match Copy fuel t h with
    | none => none
    | some (t', h1) =>
      match CopyList fuel ts h1 with
      | none => none
      | some (ts', h2) => some (t' :: ts', h2)

end

/-- The heap holding one unbound variable cell `X` (id 0). -/
def heapX : Heap := { ref := [], next := 1 }

/-- The heap after `X.Unify(g(X), false)`: `X`'s `Ref` is `g(X)`. -/
def heapXg : Heap := { ref := [(0, .comp "g" [.var 0])], next := 1 }

/-- The left term of the divergent unification: `f(X, X)`. -/
def divL : Term := .comp "f" [.var 0, .var 0]

/-- The right term of the divergent unification: `f(g(X), g(g(X)))`. -/
def divR : Term := .comp "g" [.var 0] |> fun gX => .comp "f" [gX, .comp "g" [gX]]

/-- `Unify(f(X,X), f(g(X),g(g(X))), false)` from the one-variable heap never
returns within any fuel: the source recurses forever on it (after `X.Ref`
becomes `g(X)`, matching the second arguments cycles through
`X ~ g(X) ~ g(g(X))`). -/
def unifyDiverges : Prop :=
  ∀ fuel, Unify fuel divL divR false heapX = none

/-- The spec's wording for compound unification — "arguments unify pairwise
left-to-right, threading the environment" — as a relation between the heap
before and after, to be compared with the implementation's argument loop.
The fuel bookkeeping mirrors `UnifyList`'s. -/
inductive UnifiesPairwise (oc : Bool) : Nat → List Term → List Term → Heap → Heap → Prop where
  | nil (fuel : Nat) (h : Heap) : UnifiesPairwise oc (fuel+1) [] [] h h
  | cons {fuel : Nat} {a b : Term} {as bs : List Term} {h h1 h2 : Heap} :
      Unify fuel a b oc h = some (true, h1) →
      UnifiesPairwise oc fuel as bs h1 h2 →
      UnifiesPairwise oc (fuel+1) (a :: as) (b :: bs) h h2

/-- The input of the `copy_term` sharing counterexample: `f(X, X)`, both
arguments the same unbound cell. -/
def copyIn : Term := .comp "f" [.var 0, .var 0]

end Old

/-!
Helper lemmas and the claim theorems.
-/

namespace En

theorem resolve_nil (t : Term) : Env.resolve [] t = t := by
  cases t <;> rfl

theorem containsF_mono :
    ∀ (n m : Nat), n ≤ m → ∀ (t : Term) (v : String) (env : Env),
      containsF n t v env = true → containsF m t v env = true := by
  intro n
  induction n with
  | zero => intro m _ t v env h; simp [containsF] at h
  | succ k ih =>
    intro m hnm t v env h
    obtain ⟨m', rfl⟩ : ∃ m', m = m' + 1 := ⟨m - 1, by omega⟩
    have hk : k ≤ m' := by omega
    rw [containsF] at h ⊢
    cases hres : Env.resolve env t with
    | var w => rw [hres] at h; simpa using h
    | comp f args =>
      rw [hres] at h
      simp at h ⊢
      obtain ⟨a, ha, hc⟩ := h
      exact ⟨a, ha, ih m' hk a v env hc⟩
    | atom a => rw [hres] at h; simp at h
    | int i => rw [hres] at h; simp at h
    | float q => rw [hres] at h; simp at h

theorem containsF_var_nil {n : Nat} {w v : String}
    (h : containsF n (.var w) v [] = true) : w = v := by
  cases n with
  | zero => simp [containsF] at h
  | succ k =>
    rw [containsF, resolve_nil] at h
    simpa using h

end En

/-- C1: for every variable `V` and every term `T` that contains `V` (in the
empty environment, i.e. with all variables fresh and unbound),
`unify_with_occurs_check(V, T)` — the engine's `Variable.Unify` with
`occursCheck = true` — succeeds if and only if `T` is `V` itself: unifying a
variable with itself succeeds (without a new binding), and unifying `V` with
a term that merely mentions `V` fails. -/
theorem C1_unify_with_occurs_check (v : String) (t : En.Term) (n m : Nat)
    (hnm : n ≤ m) (hvt : En.containsF n t v [] = true) :
    En.unifyF (m + 1) (.var v) t true [] = some ([], true) ↔ t = .var v := by
  constructor
  · intro h
    cases t with
    | var w => rw [En.containsF_var_nil hvt]
    | atom a =>
      rw [En.unifyF, En.resolve_nil, En.resolve_nil] at h
      have hc : En.containsF m (.atom a) v [] = true :=
        En.containsF_mono n m hnm _ _ _ hvt
      simp [hc] at h
    | int i =>
      rw [En.unifyF, En.resolve_nil, En.resolve_nil] at h
      have hc : En.containsF m (.int i) v [] = true :=
        En.containsF_mono n m hnm _ _ _ hvt
      simp [hc] at h
    | float q =>
      rw [En.unifyF, En.resolve_nil, En.resolve_nil] at h
      have hc : En.containsF m (.float q) v [] = true :=
        En.containsF_mono n m hnm _ _ _ hvt
      simp [hc] at h
    | comp f args =>
      rw [En.unifyF, En.resolve_nil, En.resolve_nil] at h
      have hc : En.containsF m (.comp f args) v [] = true :=
        En.containsF_mono n m hnm _ _ _ hvt
      simp [hc] at h
  · intro h
    subst h
    rw [En.unifyF, En.resolve_nil]
    simp

/-- C1 witness: `f(X)` contains `X`, and unifying `X` with `f(X)` under the
occurs check fails while unifying `X` with itself succeeds. -/
theorem C1_unify_with_occurs_check_witness :
    En.containsF 2 (.comp "f" [.var "X"]) "X" [] = true ∧
    En.unifyF 3 (.var "X") (.comp "f" [.var "X"]) true [] ≠ some ([], true) ∧
    En.unifyF 3 (.var "X") (.var "X") true [] = some ([], true) := by
  refine ⟨by decide, fun h => ?_, ?_⟩
  · exact En.Term.noConfusion
      ((C1_unify_with_occurs_check "X" (.comp "f" [.var "X"]) 2 2 le_rfl (by decide)).mp h)
  · exact (C1_unify_with_occurs_check "X" (.var "X") 2 2 le_rfl (by decide)).mpr rfl

namespace En

theorem digitChar_inj :
    ∀ d1 < 10, ∀ d2 < 10, Nat.digitChar d1 = Nat.digitChar d2 → d1 = d2 := by
  decide

theorem map_digitChar_inj :
    ∀ (l1 l2 : List Nat), (∀ x ∈ l1, x < 10) → (∀ x ∈ l2, x < 10) →
      l1.map Nat.digitChar = l2.map Nat.digitChar → l1 = l2 := by
  intro l1
  induction l1 with
  | nil =>
    intro l2 _ _ h
    cases l2 with
    | nil => rfl
    | cons b bs => simp at h
  | cons a as ih =>
    intro l2 h1 h2 h
    cases l2 with
    | nil => simp at h
    | cons b bs =>
      simp only [List.map_cons, List.cons.injEq] at h
      have ha : a = b := digitChar_inj a (h1 a (by simp)) b (h2 b (by simp)) h.1
      have hrest := ih bs (fun x hx => h1 x (by simp [hx])) (fun x hx => h2 x (by simp [hx])) h.2
      simp [ha, hrest]

theorem natChars_single_digit {n : Nat} (h : natChars (n + 1) = ['0']) : False := by
  rw [natChars] at h
  have hlen : (Nat.digits 10 (n + 1)).length = 1 := by
    have := congrArg List.length h
    simpa using this
  obtain ⟨d, hd⟩ : ∃ d, Nat.digits 10 (n + 1) = [d] := by
    cases hds : Nat.digits 10 (n + 1) with
    | nil => rw [hds] at hlen; simp at hlen
    | cons d rest =>
      rw [hds] at hlen
      simp at hlen
      exact ⟨d, by rw [hlen]⟩
  rw [hd] at h
  simp at h
  have hd10 : d < 10 := Nat.digits_lt_base (by norm_num) (by rw [hd]; simp)
  have hd0 : d = 0 := digitChar_inj d hd10 0 (by norm_num) h
  have h0 := Nat.ofDigits_digits 10 (n + 1)
  rw [hd, hd0] at h0
  simp [Nat.ofDigits] at h0

theorem natChars_inj : ∀ (m n : Nat), natChars m = natChars n → m = n := by
  intro m n h
  match m, n with
  | 0, 0 => rfl
  | 0, n+1 => exact absurd h.symm natChars_single_digit
  | m+1, 0 => exact absurd h natChars_single_digit
  | m+1, n+1 =>
    rw [natChars, natChars] at h
    have hrev := map_digitChar_inj _ _
      (fun x hx => Nat.digits_lt_base (by norm_num) (List.mem_reverse.mp hx))
      (fun x hx => Nat.digits_lt_base (by norm_num) (List.mem_reverse.mp hx)) h
    have hdig : Nat.digits 10 (m + 1) = Nat.digits 10 (n + 1) :=
      List.reverse_injective hrev
    have := congrArg (Nat.ofDigits 10) hdig
    rwa [Nat.ofDigits_digits, Nat.ofDigits_digits] at this

end En

/-- C9: in the environment-based engine a variable's identity is its name
string — `Variable.Unify` of a variable against an equally named variable
succeeds without extending the environment; `Variable.Compare` orders unbound
variables by `strings.Compare` on their names; and `NewVariable` names are
`_<counter>` from a single increasing (modulo the `uint64` wrap) counter, so
distinct counter values yield distinct variables. -/
theorem C9_variable_identity :
    (∀ (v w : String) (env : En.Env) (oc : Bool) (n : Nat),
      En.Env.resolve env (.var v) = .var w →
      En.unifyF (n + 1) (.var v) (.var v) oc env = some (env, true)) ∧
    (∀ (v w : String) (env : En.Env),
      En.Env.resolve env (.var v) = .var v →
      En.Env.resolve env (.var w) = .var w →
      En.Variable.Compare v (.var w) env = En.lexCmp v.data w.data) ∧
    (∀ (m n : Nat), m < 2 ^ 64 → n < 2 ^ 64 → m ≠ n →
      (En.NewVariable m).1 ≠ (En.NewVariable n).1) ∧
    (∀ c : Nat,
      (En.NewVariable c).1 = String.mk ('_' :: En.natChars ((c + 1) % 2 ^ 64))) := by
  refine ⟨?_, ?_, ?_, fun c => rfl⟩
  · intro v w env oc n h
    rw [En.unifyF, h]
    simp
  · intro v w env hv hw
    rw [En.Variable.Compare, hv, hw]
  · intro m n hm hn hmn h
    apply hmn
    simp only [En.NewVariable] at h
    have hdata := congrArg String.data h
    simp only [List.cons.injEq, true_and] at hdata
    have := En.natChars_inj _ _ hdata
    omega

/-- C9 witness: distinct unbound variables `A` and `B` in the empty
environment, and the first two generated variables. -/
theorem C9_variable_identity_witness :
    En.unifyF 1 (.var "A") (.var "A") true [] = some ([], true) ∧
    En.Variable.Compare "A" (.var "B") [] = En.lexCmp "A".data "B".data ∧
    (En.NewVariable 0).1 ≠ (En.NewVariable 1).1 := by
  refine ⟨?_, ?_, ?_⟩
  · exact C9_variable_identity.1 "A" "A" [] true 0 (En.resolve_nil _)
  · exact C9_variable_identity.2.1 "A" "B" [] (En.resolve_nil _) (En.resolve_nil _)
  · exact C9_variable_identity.2.2.1 0 1 (by norm_num) (by norm_num) (by norm_num)

namespace En

theorem lexCmp_self : ∀ l : List Char, lexCmp l l = 0 := by
  intro l
  induction l with
  | nil => rfl
  | cons a as ih => rw [lexCmp]; simp [lt_irrefl, ih]

theorem lexCmp_neg_iff_lex :
    ∀ (l1 l2 : List Char), lexCmp l1 l2 = -1 ↔ List.Lex (· < ·) l1 l2 := by
  intro l1
  induction l1 with
  | nil =>
    intro l2
    cases l2 with
    | nil =>
      constructor
      · intro h; simp [lexCmp] at h
      · intro h; cases h
    | cons b bs =>
      constructor
      · intro _; exact List.Lex.nil
      · intro _; rfl
  | cons a as ih =>
    intro l2
    cases l2 with
    | nil =>
      constructor
      · intro h; rw [lexCmp] at h; exact absurd h (by decide)
      · intro h; cases h
    | cons b bs =>
      rw [lexCmp]
      by_cases hab : a < b
      · simp only [hab, if_true]
        constructor
        · intro _; exact List.Lex.rel hab
        · intro _; trivial
      · by_cases hba : b < a
        · simp only [hab, if_false, hba, if_true]
          constructor
          · intro h; exact absurd h (by decide)
          · intro h
            cases h with
            | rel hr => exact absurd hr hab
            | cons ht => exact absurd hba (lt_irrefl _)
        · have hab' : a = b := le_antisymm (not_lt.mp hba) (not_lt.mp hab)
          subst hab'
          simp only [hab, if_false]
          rw [ih bs]
          constructor
          · intro h; exact List.Lex.cons h
          · intro h
            cases h with
            | rel hr => exact absurd hr (lt_irrefl _)
            | cons ht => exact ht

end En

/-- C7: `compare/3` implements the standard order of terms — every unbound
variable precedes every number, every number precedes every atom, every atom
precedes every compound; atoms are ordered lexicographically by character
codes (`List.Lex` on the code-point order); compounds compare arity first,
then the functor atom, then the arguments left-to-right. -/
theorem C7_compare_standard_order :
    (∀ (v : String) (n : Int), En.Compare (.var v) (.int n) = -1) ∧
    (∀ (v : String) (q : ℚ), En.Compare (.var v) (.float q) = -1) ∧
    (∀ (n : Int) (a : String), En.Compare (.int n) (.atom a) = -1) ∧
    (∀ (q : ℚ) (a : String), En.Compare (.float q) (.atom a) = -1) ∧
    (∀ (a f : String) (args : List En.Term), En.Compare (.atom a) (.comp f args) = -1) ∧
    (∀ a b : String,
      En.Compare (.atom a) (.atom b) = En.lexCmp a.data b.data ∧
      (En.Compare (.atom a) (.atom b) = -1 ↔ List.Lex (· < ·) a.data b.data)) ∧
    (∀ (f g : String) (as bs : List En.Term),
      as.length < bs.length → En.Compare (.comp f as) (.comp g bs) = -1) ∧
    (∀ (f g : String) (as bs : List En.Term),
      as.length = bs.length → En.lexCmp f.data g.data ≠ 0 →
      En.Compare (.comp f as) (.comp g bs) = En.lexCmp f.data g.data) ∧
    (∀ (f : String) (as bs : List En.Term),
      as.length = bs.length →
      En.Compare (.comp f as) (.comp f bs) = En.CompareList as bs) := by
  refine ⟨fun v n => rfl, fun v q => rfl, fun n a => rfl, fun q a => rfl,
    fun a f args => rfl, fun a b => ⟨rfl, En.lexCmp_neg_iff_lex a.data b.data⟩,
    ?_, ?_, ?_⟩
  · intro f g as bs h
    rw [En.Compare]
    simp [h]
  · intro f g as bs hlen hf
    rw [En.Compare]
    simp [hlen, lt_irrefl, hf]
  · intro f as bs hlen
    rw [En.Compare]
    simp [hlen, lt_irrefl, En.lexCmp_self]

/-- C7 witness: concrete instances of each ordering clause. -/
theorem C7_compare_standard_order_witness :
    En.Compare (.var "X") (.int 3) = -1 ∧
    En.Compare (.int 3) (.atom "a") = -1 ∧
    En.Compare (.atom "z") (.comp "f" [.atom "a"]) = -1 ∧
    En.Compare (.atom "abc") (.atom "abd") = -1 ∧
    En.Compare (.comp "f" [.atom "a"]) (.comp "a" []) = 1 ∧
    En.Compare (.comp "b" [.atom "z"]) (.comp "c" [.atom "a"]) =
      En.lexCmp "b".data "c".data ∧
    En.Compare (.comp "f" [.atom "a", .atom "b"]) (.comp "f" [.atom "a", .atom "c"]) =
      En.CompareList [.atom "a", .atom "b"] [.atom "a", .atom "c"] := by
  refine ⟨C7_compare_standard_order.1 "X" 3,
    C7_compare_standard_order.2.2.1 3 "a",
    C7_compare_standard_order.2.2.2.2.1 "z" "f" [.atom "a"], ?_, ?_, ?_, ?_⟩
  · have := (C7_compare_standard_order.2.2.2.2.2.1 "abc" "abd").2.mpr
    exact this (by decide)
  · have := C7_compare_standard_order.2.2.2.2.2.2.1 "a" "f" ([] : List En.Term)
      [.atom "a"] (by decide)
    rw [En.Compare]
    simp
  · exact C7_compare_standard_order.2.2.2.2.2.2.2.1 "b" "c" [.atom "z"] [.atom "a"]
      (by decide) (by decide)
  · exact C7_compare_standard_order.2.2.2.2.2.2.2.2 "f" [.atom "a", .atom "b"]
      [.atom "a", .atom "c"] (by decide)

/-- C3: dispatching a goal whose procedure indicator is absent from the
database is decided by the `unknown` flag — `error` returns an `Error`
promise carrying `existence_error(procedure, Name/Arity)`; `warning` invokes
the `OnUnknown` callback exactly once and the goal fails; `fail` fails the
goal without invoking the callback. -/
theorem C3_arrive_unknown
    (procs : List (En.ProcedureIndicator × En.procedure)) (u : En.unknownAction)
    (pi' : En.ProcedureIndicator) (args : List En.Term)
    (habs : En.lookupProc procs pi' = none) :
    (u = .unknownError →
      En.Arrive procs u pi' args =
        (.ErrorT (.comp "existence_error"
          [.atom "procedure", .comp "/" [.atom pi'.Name, .int pi'.Arity]]), 0)) ∧
    (u = .unknownWarning → En.Arrive procs u pi' args = (.BoolP false, 1)) ∧
    (u = .unknownFail → En.Arrive procs u pi' args = (.BoolP false, 0)) := by
  refine ⟨fun hu => ?_, fun hu => ?_, fun hu => ?_⟩ <;>
    subst hu <;> rw [En.Arrive, habs] <;> rfl

/-- C3 witness: dispatching the absent `foo/1` under each `unknown` value. -/
theorem C3_arrive_unknown_witness :
    En.Arrive [] .unknownError ⟨"foo", 1⟩ [.atom "a"] =
      (.ErrorT (.comp "existence_error"
        [.atom "procedure", .comp "/" [.atom "foo", .int 1]]), 0) ∧
    En.Arrive [] .unknownWarning ⟨"foo", 1⟩ [.atom "a"] = (.BoolP false, 1) ∧
    En.Arrive [] .unknownFail ⟨"foo", 1⟩ [.atom "a"] = (.BoolP false, 0) := by
  refine ⟨?_, ?_, ?_⟩
  · exact (C3_arrive_unknown [] .unknownError ⟨"foo", 1⟩ [.atom "a"] rfl).1 rfl
  · exact (C3_arrive_unknown [] .unknownWarning ⟨"foo", 1⟩ [.atom "a"] rfl).2.1 rfl
  · exact (C3_arrive_unknown [] .unknownFail ⟨"foo", 1⟩ [.atom "a"] rfl).2.2 rfl

namespace En

theorem lookupProc_setProc (procs : List (ProcedureIndicator × procedure))
    (pi' : ProcedureIndicator) (p : procedure) :
    lookupProc (setProc procs pi' p) pi' = some p := by
  induction procs with
  | nil => simp [setProc, lookupProc]
  | cons qp rest ih =>
    obtain ⟨q, r⟩ := qp
    rw [setProc]
    by_cases hq : q = pi'
    · simp [hq, lookupProc]
    · simp only [hq, if_false]
      rw [lookupProc]
      simp [hq, ih]

end En

/-- C8: `assertz` appends the new clause after all existing clauses of its
procedure and `asserta` prepends it before them (the clause-list order drives
the order of subsequent solutions), and both raise
`permission_error(modify, static_procedure, Name/Arity)` when the target
procedure is a native built-in. -/
theorem C8_assert_order
    (procs : List (En.ProcedureIndicator × En.procedure)) (t : En.Term)
    (pi' : En.ProcedureIndicator) (hpi : En.piOfClause t = .ok pi') :
    (∀ cs, En.lookupProc procs pi' = some (.clauses cs) →
      En.assertedClauses (En.Assertz procs t) pi' = some (cs ++ [t]) ∧
      En.assertedClauses (En.Asserta procs t) pi' = some (t :: cs)) ∧
    (∀ k, En.lookupProc procs pi' = some (.native k) →
      En.Assertz procs t =
        .error (En.permissionErrorModifyStaticProcedure pi'.toTerm) ∧
      En.Asserta procs t =
        .error (En.permissionErrorModifyStaticProcedure pi'.toTerm)) := by
  constructor
  · intro cs hcs
    constructor
    · have hz : En.Assertz procs t = .ok (En.setProc procs pi' (.clauses (cs ++ [t]))) := by
        rw [En.Assertz, hpi]
        simp [hcs]
      rw [En.assertedClauses.eq_def, hz]
      simp [En.lookupProc_setProc]
    · have hz : En.Asserta procs t = .ok (En.setProc procs pi' (.clauses (t :: cs))) := by
        rw [En.Asserta, hpi]
        simp [hcs]
      rw [En.assertedClauses.eq_def, hz]
      simp [En.lookupProc_setProc]
  · intro k hk
    constructor
    · rw [En.Assertz, hpi]
      simp [hk]
    · rw [En.Asserta, hpi]
      simp [hk]

/-- C8 witness: asserting `foo(b)` into a database where `foo/1` already has
the single clause `foo(a)` — `assertz` yields `[foo(a), foo(b)]`, `asserta`
yields `[foo(b), foo(a)]` — and asserting onto the built-in `bar/0` raises
the `permission_error`. -/
theorem C8_assert_order_witness :
    En.assertedClauses
      (En.Assertz [(⟨"foo", 1⟩, .clauses [.comp "foo" [.atom "a"]])]
        (.comp "foo" [.atom "b"])) ⟨"foo", 1⟩ =
      some [.comp "foo" [.atom "a"], .comp "foo" [.atom "b"]] ∧
    En.assertedClauses
      (En.Asserta [(⟨"foo", 1⟩, .clauses [.comp "foo" [.atom "a"]])]
        (.comp "foo" [.atom "b"])) ⟨"foo", 1⟩ =
      some [.comp "foo" [.atom "b"], .comp "foo" [.atom "a"]] ∧
    En.Assertz [(⟨"bar", 0⟩, .native 0)] (.atom "bar") =
      .error (En.permissionErrorModifyStaticProcedure
        (.comp "/" [.atom "bar", .int 0])) := by
  refine ⟨?_, ?_, ?_⟩
  · exact ((C8_assert_order [(⟨"foo", 1⟩, .clauses [.comp "foo" [.atom "a"]])]
      (.comp "foo" [.atom "b"]) ⟨"foo", 1⟩ rfl).1 [.comp "foo" [.atom "a"]] rfl).1
  · exact ((C8_assert_order [(⟨"foo", 1⟩, .clauses [.comp "foo" [.atom "a"]])]
      (.comp "foo" [.atom "b"]) ⟨"foo", 1⟩ rfl).1 [.comp "foo" [.atom "a"]] rfl).2
  · exact ((C8_assert_order [(⟨"bar", 0⟩, .native 0)] (.atom "bar")
      ⟨"bar", 0⟩ rfl).2 0 rfl).1

/-- C5: arithmetic evaluation of a division whose divisor evaluates to zero
raises `evaluation_error(zero_divisor)` — generally for `/` and for `//` on
integer operands, and in particular for the goals `X is 1/0` and
`X is 4 // 0`. -/
theorem C5_zero_divisor :
    (∀ (x y vx vy : En.Term), En.evalArith x = .ok vx → En.evalArith y = .ok vy →
      En.isZeroT vy = true →
      En.evalArith (.comp "/" [x, y]) = .error En.evaluationErrorZeroDivisor) ∧
    (∀ (x y : En.Term) (m : Int), En.evalArith x = .ok (.int m) →
      En.evalArith y = .ok (.int 0) →
      En.evalArith (.comp "//" [x, y]) = .error En.evaluationErrorZeroDivisor) ∧
    En.evalArith (.comp "/" [.int 1, .int 0]) = .error En.evaluationErrorZeroDivisor ∧
    En.evalArith (.comp "//" [.int 4, .int 0]) = .error En.evaluationErrorZeroDivisor := by
  refine ⟨?_, ?_, rfl, rfl⟩
  · intro x y vx vy hx hy hz
    rw [En.evalArith]
    simp [hx, hy, hz]
  · intro x y m hx hy
    rw [En.evalArith]
    simp [hx, hy]

/-- C5 witness: the two concrete divisions of the claim, obtained from the
general clauses. -/
theorem C5_zero_divisor_witness :
    En.evalArith (.comp "/" [.int 1, .int 0]) = .error En.evaluationErrorZeroDivisor ∧
    En.evalArith (.comp "//" [.int 4, .int 0]) = .error En.evaluationErrorZeroDivisor := by
  constructor
  · exact C5_zero_divisor.1 (.int 1) (.int 0) (.int 1) (.int 0) rfl rfl rfl
  · exact C5_zero_divisor.2.1 (.int 4) (.int 0) 4 rfl rfl

namespace En

theorem mem_opInsert {ops : Operators} {o x : operator} :
    x ∈ opInsert ops o → x = o ∨ x ∈ ops := by
  induction ops with
  | nil => intro h; simp [opInsert] at h; exact Or.inl h
  | cons p rest ih =>
    intro h
    rw [opInsert] at h
    by_cases hp : p.Priority ≤ o.Priority
    · simp only [hp, if_true, List.mem_cons] at h
      rcases h with h | h
      · exact Or.inr (by simp [h])
      · rcases ih h with h | h
        · exact Or.inl h
        · exact Or.inr (by simp [h])
    · simp only [hp, if_false, List.mem_cons] at h
      rcases h with h | h
      · exact Or.inl h
      · exact Or.inr (by simpa using h)

theorem opInsert_pairwise {ops : Operators} {o : operator}
    (h : List.Pairwise (fun a b => a.Priority ≤ b.Priority) ops) :
    List.Pairwise (fun a b => a.Priority ≤ b.Priority) (opInsert ops o) := by
  induction ops with
  | nil => simp [opInsert]
  | cons p rest ih =>
    rw [opInsert]
    rw [List.pairwise_cons] at h
    by_cases hp : p.Priority ≤ o.Priority
    · simp only [hp, if_true]
      rw [List.pairwise_cons]
      refine ⟨?_, ih h.2⟩
      intro x hx
      rcases mem_opInsert hx with hx | hx
      · rw [hx]; exact hp
      · exact h.1 x hx
    · simp only [hp, if_false]
      rw [List.pairwise_cons]
      refine ⟨?_, List.pairwise_cons.mpr h⟩
      intro x hx
      rcases List.mem_cons.mp hx with hx | hx
      · rw [hx]; omega
      · have := h.1 x hx; omega

end En

/-- C6 counterexample: on the `TestEngine_Op` scenario the operator table is
kept ordered by priority ascending — inserting `op(1000, xfx, ++)` between
priorities `900` and `1100` yields `[900, 1000, 1100]`, which is not ordered
descending — and `op(0, xfx, ++)` succeeds (removing the operator) rather
than raising `domain_error(operator_priority)` for the out-of-`1..1200`
priority `0`. -/
theorem C6_counterexample :
    En.Op [⟨900, "xfx", "+++"⟩, ⟨1100, "xfx", "+"⟩]
        (.int 1000) (.atom "xfx") (.atom "++") =
      .ok [⟨900, "xfx", "+++"⟩, ⟨1000, "xfx", "++"⟩, ⟨1100, "xfx", "+"⟩] ∧
    ¬ List.Pairwise (fun a b : En.operator => b.Priority ≤ a.Priority)
        [⟨900, "xfx", "+++"⟩, ⟨1000, "xfx", "++"⟩, ⟨1100, "xfx", "+"⟩] ∧
    En.Op [⟨1000, "xfx", "++"⟩] (.int 0) (.atom "xfx") (.atom "++") = .ok [] := by
  refine ⟨rfl, ?_, rfl⟩
  intro h
  rw [List.pairwise_cons] at h
  have := h.1 ⟨1000, "xfx", "++"⟩ (by simp)
  simp at this

/-- C6 (amended): the operator table is kept ordered by priority ascending,
and every entry accepted by `op/3` has priority in `1..1200` and a specifier
among `{fx, fy, xf, yf, xfx, xfy, yfx}`; `op/3` raises
`domain_error(operator_priority)` for priorities outside `0..1200` (priority
`0` is accepted and removes the operator instead of adding an entry) and
`domain_error(operator_specifier)` for any other specifier atom. -/
theorem C6_op_table_amended :
    (∀ (ops : En.Operators) (pv : Int) (sv nv : String) (result : En.Operators),
      List.Pairwise (fun a b => a.Priority ≤ b.Priority) ops →
      (∀ o ∈ ops, 1 ≤ o.Priority ∧ o.Priority ≤ 1200 ∧
        En.validSpecifier o.Specifier = true) →
      En.Op ops (.int pv) (.atom sv) (.atom nv) = .ok result →
      List.Pairwise (fun a b => a.Priority ≤ b.Priority) result ∧
      ∀ o ∈ result, 1 ≤ o.Priority ∧ o.Priority ≤ 1200 ∧
        En.validSpecifier o.Specifier = true) ∧
    (∀ (ops : En.Operators) (s n : En.Term),
      En.Op ops (.int (-1)) s n = .error (En.domainErrorOperatorPriority (.int (-1)))) ∧
    (∀ (ops : En.Operators) (s n : En.Term),
      En.Op ops (.int 1201) s n = .error (En.domainErrorOperatorPriority (.int 1201))) ∧
    (∀ (ops : En.Operators) (n : En.Term),
      En.Op ops (.int 1000) (.atom "foo") n =
        .error (En.domainErrorOperatorSpecifier (.atom "foo"))) := by
  refine ⟨?_, fun ops s n => rfl, fun ops s n => rfl, fun ops n => rfl⟩
  intro ops pv sv nv result hsort hvalid hok
  rw [En.Op] at hok
  by_cases hrange : (decide (pv < 0) || decide (1200 < pv)) = true
  · rw [if_pos hrange] at hok
    exact absurd hok (by simp)
  · rw [if_neg hrange] at hok
    simp only [Bool.or_eq_true, decide_eq_true_eq, not_or, not_lt] at hrange
    by_cases hspec : En.validSpecifier sv = true
    · rw [if_neg (by simp [hspec])] at hok
      by_cases h0 : pv = 0
      · rw [if_pos h0] at hok
        injection hok with hok
        subst hok
        refine ⟨hsort.filter _, ?_⟩
        intro o ho
        exact hvalid o (List.mem_of_mem_filter ho)
      · rw [if_neg h0] at hok
        injection hok with hok
        subst hok
        refine ⟨En.opInsert_pairwise (hsort.filter _), ?_⟩
        intro o ho
        rcases En.mem_opInsert ho with ho | ho
        · subst ho
          refine ⟨show (1 : Int) ≤ pv by omega, show pv ≤ (1200 : Int) by omega, hspec⟩
        · exact hvalid o (List.mem_of_mem_filter ho)
    · rw [if_pos (by simp [hspec])] at hok
      exact absurd hok (by simp)

/-- C6 witness: the amended invariant applied to the `TestEngine_Op` insert
scenario. -/
theorem C6_op_table_amended_witness :
    List.Pairwise (fun a b : En.operator => a.Priority ≤ b.Priority)
        [⟨900, "xfx", "+++"⟩, ⟨1000, "xfx", "++"⟩, ⟨1100, "xfx", "+"⟩] ∧
    (∀ o ∈ ([⟨900, "xfx", "+++"⟩, ⟨1000, "xfx", "++"⟩, ⟨1100, "xfx", "+"⟩] :
        En.Operators), 1 ≤ o.Priority ∧ o.Priority ≤ 1200 ∧
        En.validSpecifier o.Specifier = true) := by
  exact C6_op_table_amended.1 [⟨900, "xfx", "+++"⟩, ⟨1100, "xfx", "+"⟩] 1000 "xfx" "++"
    [⟨900, "xfx", "+++"⟩, ⟨1000, "xfx", "++"⟩, ⟨1100, "xfx", "+"⟩]
    (by decide) (by decide) rfl

/-- C2: `copy_term` on `f(X, X)` (both arguments the very same unbound cell,
as parse-time sharing produces) — `Compound.Copy` copies the two occurrences
independently through `Variable.Copy`, allocating the two distinct fresh
cells `1` and `2`: the copy is `f(_1, _2)`, not `f(Y, Y)` with a single
shared fresh variable. -/
theorem C2_copy_term_sharing_bug :
    Old.Copy 4 Old.copyIn Old.heapX =
      some (.comp "f" [.var 1, .var 2], { ref := [], next := 3 }) := rfl

namespace Old

theorem unify_X_gX_heapXg_none :
    ∀ n, Unify n (.var 0) (.comp "g" [.var 0]) false heapXg = none := by
  intro n
  induction n using Nat.strong_induction_on with
  | _ n ih =>
    match n with
    | 0 => rfl
    | 1 => rfl
    | 2 => rfl
    | 3 => rfl
    | 4 => rfl
    | k+5 =>
      have hP : Unify k (.var 0) (.comp "g" [.var 0]) false heapXg = none :=
        ih k (by omega)
      have h5 : Unify (k+5) (.var 0) (.comp "g" [.var 0]) false heapXg =
          UnifyList (k+3) [.var 0] [.var 0] false heapXg := rfl
      rw [h5, UnifyList]
      have hR : Unify (k+2) (.var 0) (.var 0) false heapXg =
          Unify k (.var 0) (.comp "g" [.var 0]) false heapXg := rfl
      rw [hR, hP]

theorem unify_X_ggX_heapXg_none :
    ∀ n, Unify n (.var 0) (.comp "g" [.comp "g" [.var 0]]) false heapXg = none := by
  intro n
  match n with
  | 0 => rfl
  | 1 => rfl
  | m+2 =>
    have h2 : Unify (m+2) (.var 0) (.comp "g" [.comp "g" [.var 0]]) false heapXg =
        UnifyList m [.var 0] [.comp "g" [.var 0]] false heapXg := rfl
    rw [h2]
    match m with
    | 0 => rfl
    | m'+1 =>
      rw [UnifyList, unify_X_gX_heapXg_none m']

/-- C4 counterexample: `Unify(f(X,X), f(g(X), g(g(X))), occursCheck=false)`
on finite acyclic input terms never returns: after the first argument pair
binds `X.Ref = g(X)`, matching the second pair recurses forever through the
cyclic cell — so occurs-check-free unification is not a total function (in Go
the unbounded recursion crashes the process). -/
theorem C4_unify_total_counterexample : Old.unifyDiverges := by
  intro fuel
  match fuel with
  | 0 => rfl
  | u+1 =>
    have h1 : Old.Unify (u+1) Old.divL Old.divR false Old.heapX =
        Old.UnifyList u [.var 0, .var 0]
          [.comp "g" [.var 0], .comp "g" [.comp "g" [.var 0]]] false Old.heapX := rfl
    rw [h1]
    match u with
    | 0 => rfl
    | 1 => rfl
    | j+2 =>
      have h2 : Old.UnifyList (j+2) [.var 0, .var 0]
          [.comp "g" [.var 0], .comp "g" [.comp "g" [.var 0]]] false Old.heapX =
          Old.UnifyList (j+1) [.var 0] [.comp "g" [.comp "g" [.var 0]]] false
            Old.heapXg := rfl
      rw [h2, Old.UnifyList, Old.unify_X_ggX_heapXg_none j]

theorem unifyList_iff_pairwise :
    ∀ (fuel : Nat) (as bs : List Term) (oc : Bool) (h h' : Heap),
      as.length = bs.length →
      (UnifyList fuel as bs oc h = some (true, h') ↔
        UnifiesPairwise oc fuel as bs h h') := by
  intro fuel
  induction fuel with
  | zero =>
    intro as bs oc h h' hlen
    constructor
    · intro hu; simp [UnifyList] at hu
    · intro hp; cases hp
  | succ k ih =>
    intro as bs oc h h' hlen
    cases as with
    | nil =>
      cases bs with
      | nil =>
        constructor
        · intro hu
          rw [UnifyList] at hu
          injection hu with hu
          injection hu with _ hu
          rw [← hu]
          exact .nil k h
        · intro hp; cases hp; rfl
      | cons b bs' => simp at hlen
    | cons a as' =>
      cases bs with
      | nil => simp at hlen
      | cons b bs' =>
        constructor
        · intro hu
          rw [UnifyList] at hu
          cases hU : Unify k a b oc h with
          | none => rw [hU] at hu; simp at hu
          | some r =>
            obtain ⟨ok, h1⟩ := r
            rw [hU] at hu
            cases ok with
            | false => simp at hu
            | true =>
              exact .cons hU ((ih as' bs' oc h1 h' (by simpa using hlen)).mp hu)
        · intro hp
          cases hp with
          | cons hU htail =>
            rw [UnifyList, hU]
            exact (ih _ _ oc _ h' (by simpa using hlen)).mpr htail

end Old

/-- C4 (amended): unification in `src/term.go` returns plain
success-or-failure (never an error term): two compounds unify exactly when
their functors and arities agree and their arguments unify pairwise
left-to-right threading the bindings, and atomic values (atoms, integers)
unify exactly when they are identical — but it is not total: without the
occurs check, subject-to-occurs-check argument pairs can drive `Unify` into
unbounded recursion (see the counterexample), so these equations hold
whenever the computation returns. -/
theorem C4_unify_amended :
    (∀ (fuel : Nat) (f g : String) (as bs : List Old.Term) (oc : Bool)
        (h h' : Old.Heap),
      Old.Unify (fuel+1) (.comp f as) (.comp g bs) oc h = some (true, h') ↔
        (f = g ∧ as.length = bs.length ∧
          Old.UnifyList fuel as bs oc h = some (true, h'))) ∧
    (∀ (fuel : Nat) (as bs : List Old.Term) (oc : Bool) (h h' : Old.Heap),
      as.length = bs.length →
      (Old.UnifyList fuel as bs oc h = some (true, h') ↔
        Old.UnifiesPairwise oc fuel as bs h h')) ∧
    (∀ (fuel : Nat) (a b : String) (oc : Bool) (h : Old.Heap),
      (Old.Unify (fuel+1) (.atom a) (.atom b) oc h = some (true, h) ↔ a = b) ∧
      (a ≠ b → Old.Unify (fuel+1) (.atom a) (.atom b) oc h = some (false, h))) ∧
    (∀ (fuel : Nat) (m n : Int) (oc : Bool) (h : Old.Heap),
      (Old.Unify (fuel+1) (.int m) (.int n) oc h = some (true, h) ↔ m = n) ∧
      (m ≠ n → Old.Unify (fuel+1) (.int m) (.int n) oc h = some (false, h))) := by
  refine ⟨?_, Old.unifyList_iff_pairwise, ?_, ?_⟩
  · intro fuel f g as bs oc h h'
    rw [Old.Unify]
    by_cases hf : f = g
    · by_cases hlen : as.length = bs.length
      · simp [hf, hlen]
      · simp [hf, hlen]
    · simp [hf]
  · intro fuel a b oc h
    rw [Old.Unify]
    constructor
    · simp
    · intro hne; simp [hne]
  · intro fuel m n oc h
    rw [Old.Unify]
    constructor
    · simp
    · intro hne; simp [hne]

/-- C4 witness: `f(a) = f(a)` succeeds via the pairwise rule, and `a = b`
fails without an error. -/
theorem C4_unify_amended_witness :
    Old.Unify 3 (.comp "f" [.atom "a"]) (.comp "f" [.atom "a"]) false
      { ref := [], next := 0 } = some (true, { ref := [], next := 0 }) ∧
    Old.UnifiesPairwise false 2 [.atom "a"] [.atom "a"]
      { ref := [], next := 0 } { ref := [], next := 0 } ∧
    Old.Unify 1 (.atom "a") (.atom "b") false { ref := [], next := 0 } =
      some (false, { ref := [], next := 0 }) := by
  refine ⟨?_, ?_, ?_⟩
  · exact (C4_unify_amended.1 2 "f" "f" [.atom "a"] [.atom "a"] false
      { ref := [], next := 0 } { ref := [], next := 0 }).mpr ⟨rfl, rfl, rfl⟩
  · exact (C4_unify_amended.2.1 2 [.atom "a"] [.atom "a"] false
      { ref := [], next := 0 } { ref := [], next := 0 } rfl).mp rfl
  · exact (C4_unify_amended.2.2.1 0 "a" "b" false { ref := [], next := 0 }).2
      (by decide)

namespace En

theorem stepInstr_cases (uf : Nat) (i : instruction) (rest : List instruction)
    (r : registers) (hwf : instrWF r.xr.length r.vars.length r.piT.length i) :
    (∃ p, stepInstr uf i rest r = .inl p ∧ (p = .hung ∨ handlerPromise p)) ∨
    (∃ r', stepInstr uf i rest r = .inr r' ∧ r'.xr = r.xr ∧ r'.vars = r.vars ∧
      r'.piT = r.piT) := by
  obtain ⟨opc, operand⟩ := i
  cases opc with
  | opConst =>
    have hop : operand < r.xr.length := hwf
    cases hx : r.xr[operand]? with
    | none => rw [List.getElem?_eq_none_iff] at hx; omega
    | some x =>
      cases hu : unifyF uf r.args (.comp "." [x, .var (NewVariable r.vc).1]) false r.env with
      | none =>
        exact Or.inl ⟨.hung, by simp [stepInstr, execConst, hx, hu], Or.inl rfl⟩
      | some eb =>
        obtain ⟨env', ok⟩ := eb
        cases ok with
        | false =>
          exact Or.inl ⟨.boolP false, by simp [stepInstr, execConst, hx, hu],
            Or.inr trivial⟩
        | true =>
          exact Or.inr ⟨{ r with args := .var (NewVariable r.vc).1, env := env', vc := (NewVariable r.vc).2 }, by simp [stepInstr, execConst, hx, hu], rfl, rfl, rfl⟩
  | opVar =>
    have hop : operand < r.vars.length := hwf
    cases hx : r.vars[operand]? with
    | none => rw [List.getElem?_eq_none_iff] at hx; omega
    | some v =>
      cases hu : unifyF uf (.comp "." [.var v, .var (NewVariable r.vc).1]) r.args false r.env with
      | none =>
        exact Or.inl ⟨.hung, by simp [stepInstr, execVar, hx, hu], Or.inl rfl⟩
      | some eb =>
        obtain ⟨env', ok⟩ := eb
        cases ok with
        | false =>
          exact Or.inl ⟨.boolP false, by simp [stepInstr, execVar, hx, hu],
            Or.inr trivial⟩
        | true =>
          exact Or.inr ⟨{ r with args := .var (NewVariable r.vc).1, env := env', vc := (NewVariable r.vc).2 }, by simp [stepInstr, execVar, hx, hu], rfl, rfl, rfl⟩
  | opFunctor =>
    have hop : operand < r.piT.length := hwf
    cases hx : r.piT[operand]? with
    | none => rw [List.getElem?_eq_none_iff] at hx; omega
    | some pi' =>
      cases hu : unifyF uf r.args
          (.comp "." [.var (NewVariable r.vc).1, .var (NewVariable (NewVariable r.vc).2).1])
          false r.env with
      | none =>
        exact Or.inl ⟨.hung, by simp [stepInstr, execFunctor, hx, hu], Or.inl rfl⟩
      | some eb =>
        obtain ⟨env1, ok⟩ := eb
        cases ok with
        | false =>
          exact Or.inl ⟨.boolP false, by simp [stepInstr, execFunctor, hx, hu],
            Or.inr trivial⟩
        | true =>
          cases hF : Functor uf (.var (NewVariable r.vc).1) pi'.Name pi'.Arity env1
              (NewVariable (NewVariable r.vc).2).2 with
          | none =>
            exact Or.inl ⟨.hung, by simp [stepInstr, execFunctor, hx, hu, hF],
              Or.inl rfl⟩
          | some res =>
            cases res with
            | error e =>
              exact Or.inl ⟨.errorT e, by simp [stepInstr, execFunctor, hx, hu, hF],
                Or.inr trivial⟩
            | ok o =>
              cases o with
              | none =>
                exact Or.inl ⟨.boolP false, by simp [stepInstr, execFunctor, hx, hu, hF],
                  Or.inr trivial⟩
              | some envvc =>
                obtain ⟨env2, vc3⟩ := envvc
                cases hU : Univ uf (.var (NewVariable r.vc).1)
                    (.comp "." [.atom pi'.Name, .var (NewVariable vc3).1]) env2 with
                | none =>
                  exact Or.inl ⟨.hung,
                    by simp [stepInstr, execFunctor, hx, hu, hF, hU], Or.inl rfl⟩
                | some res2 =>
                  cases res2 with
                  | error e =>
                    exact Or.inl ⟨.errorT e,
                      by simp [stepInstr, execFunctor, hx, hu, hF, hU], Or.inr trivial⟩
                  | ok o2 =>
                    cases o2 with
                    | none =>
                      exact Or.inl ⟨.boolP false,
                        by simp [stepInstr, execFunctor, hx, hu, hF, hU], Or.inr trivial⟩
                    | some env3 =>
                      exact Or.inr ⟨{ r with args := Term.var (NewVariable vc3).1, astack := Term.comp "." [Term.var (NewVariable (NewVariable r.vc).2).1, r.astack], env := env3, vc := (NewVariable vc3).2 }, by simp [stepInstr, execFunctor, hx, hu, hF, hU], rfl, rfl, rfl⟩
  | opPop =>
    cases hu : unifyF uf r.args (.atom "[]") false r.env with
    | none => exact Or.inl ⟨.hung, by simp [stepInstr, execPop, hu], Or.inl rfl⟩
    | some eb =>
      obtain ⟨env1, ok⟩ := eb
      cases ok with
      | false =>
        exact Or.inl ⟨.boolP false, by simp [stepInstr, execPop, hu], Or.inr trivial⟩
      | true =>
        cases hu2 : unifyF uf r.astack
            (.comp "." [.var (NewVariable r.vc).1, .var (NewVariable (NewVariable r.vc).2).1])
            false env1 with
        | none =>
          exact Or.inl ⟨.hung, by simp [stepInstr, execPop, hu, hu2], Or.inl rfl⟩
        | some eb2 =>
          obtain ⟨env2, ok2⟩ := eb2
          cases ok2 with
          | false =>
            exact Or.inl ⟨.boolP false, by simp [stepInstr, execPop, hu, hu2],
              Or.inr trivial⟩
          | true =>
            exact Or.inr ⟨{ r with args := .var (NewVariable r.vc).1, astack := .var (NewVariable (NewVariable r.vc).2).1, env := env2, vc := (NewVariable (NewVariable r.vc).2).2 }, by simp [stepInstr, execPop, hu, hu2], rfl, rfl, rfl⟩
  | opEnter =>
    cases hu : unifyF uf r.args (.atom "[]") false r.env with
    | none => exact Or.inl ⟨.hung, by simp [stepInstr, execEnter, hu], Or.inl rfl⟩
    | some eb =>
      obtain ⟨env1, ok⟩ := eb
      cases ok with
      | false =>
        exact Or.inl ⟨.boolP false, by simp [stepInstr, execEnter, hu], Or.inr trivial⟩
      | true =>
        cases hu2 : unifyF uf r.astack (.atom "[]") false env1 with
        | none =>
          exact Or.inl ⟨.hung, by simp [stepInstr, execEnter, hu, hu2], Or.inl rfl⟩
        | some eb2 =>
          obtain ⟨env2, ok2⟩ := eb2
          cases ok2 with
          | false =>
            exact Or.inl ⟨.boolP false, by simp [stepInstr, execEnter, hu, hu2],
              Or.inr trivial⟩
          | true =>
            exact Or.inr ⟨{ r with args := .var (NewVariable r.vc).1, astack := .var (NewVariable r.vc).1, env := env2, vc := (NewVariable r.vc).2 }, by simp [stepInstr, execEnter, hu, hu2], rfl, rfl, rfl⟩
  | opCall =>
    have hop : operand < r.piT.length := hwf
    cases hx : r.piT[operand]? with
    | none => rw [List.getElem?_eq_none_iff] at hx; omega
    | some pi' =>
      cases hu : unifyF uf r.args (.atom "[]") false r.env with
      | none => exact Or.inl ⟨.hung, by simp [stepInstr, execCall, hx, hu], Or.inl rfl⟩
      | some eb =>
        obtain ⟨env', ok⟩ := eb
        cases ok with
        | false =>
          exact Or.inl ⟨.boolP false, by simp [stepInstr, execCall, hx, hu],
            Or.inr trivial⟩
        | true =>
          exact Or.inl ⟨.delayedCall pi' { r with pc := rest, env := env' },
            by simp [stepInstr, execCall, hx, hu], Or.inr trivial⟩
  | opExit => exact Or.inl ⟨.contP r.env, rfl, Or.inr trivial⟩
  | opCut =>
    exact Or.inl ⟨.cutP r.cutParent { r with pc := rest }, rfl, Or.inr trivial⟩

theorem execAux_classified :
    ∀ (pc : List instruction) (uf : Nat) (r : registers), r.pc = pc → regsWF r →
      (execAux uf pc r = .errHost "non-exit end of bytecode" ∨
        execAux uf pc r = .hung ∨ handlerPromise (execAux uf pc r)) ∧
      execAux uf pc r ≠ .panicked := by
  intro pc
  induction pc with
  | nil =>
    intro uf r _ _
    exact ⟨Or.inl rfl, by intro h; cases h⟩
  | cons i rest ih =>
    intro uf r hpc hwf
    have hi : instrWF r.xr.length r.vars.length r.piT.length i :=
      hwf i (by rw [hpc]; simp)
    rw [execAux]
    rcases stepInstr_cases uf i rest r hi with ⟨p, hp, hclass⟩ | ⟨r', hr', hxr, hvars, hpiT⟩
    · rw [hp]
      rcases hclass with hclass | hclass
      · refine ⟨Or.inr (Or.inl hclass), fun h => ?_⟩
        have h' : p = ExecResult.panicked := h
        have hcontra : ExecResult.hung = ExecResult.panicked := hclass.symm.trans h'
        cases hcontra
      · refine ⟨Or.inr (Or.inr hclass), fun h => ?_⟩
        have h' : p = ExecResult.panicked := h
        rw [h'] at hclass
        exact hclass
    · rw [hr']
      apply ih uf
      · rfl
      · intro j hj
        have hj' : instrWF r.xr.length r.vars.length r.piT.length j :=
          hwf j (by rw [hpc]; simp; exact Or.inr hj)
        simpa [hxr, hvars, hpiT] using hj'

theorem exec_classified (uf : Nat) (r : registers) (hwf : regsWF r) :
    (exec uf r = .errHost "non-exit end of bytecode" ∨ exec uf r = .hung ∨
      handlerPromise (exec uf r)) ∧ exec uf r ≠ .panicked :=
  execAux_classified r.pc uf r rfl hwf

end En

/-- C10 counterexample: `VM.exec` is not total over all bytecode sequences —
on the single instruction `Const 0` with an empty `xr` table, the handler's
very first step `r.xr[r.pc[0].operand]` is a Go index-out-of-range panic, a
crash rather than a returned promise. -/
theorem C10_exec_counterexample : En.exec 1 En.badRegs = .panicked := rfl

/-- C10 (amended): for every bytecode sequence whose operands are in range of
the corresponding registers tables, the execution loop is total — it either
returns a promise produced by one of the opcode handlers (unification
failure, `Functor`/`Univ` error, `Call` delay, `Exit` continuation, or Cut),
hangs only inside a non-terminating unification, or, when the program counter
runs off the end of the bytecode without an `Exit`, returns the Error promise
`non-exit end of bytecode` — and it never panics. -/
theorem C10_exec_amended (uf : Nat) (r : En.registers) (hwf : En.regsWF r) :
    (r.pc = [] → En.exec uf r = .errHost "non-exit end of bytecode") ∧
    (En.exec uf r = .errHost "non-exit end of bytecode" ∨ En.exec uf r = .hung ∨
      En.handlerPromise (En.exec uf r)) ∧
    En.exec uf r ≠ .panicked := by
  have h := En.exec_classified uf r hwf
  refine ⟨fun hpc => ?_, h.1, h.2⟩
  rw [En.exec, hpc]
  rfl

/-- C10 witness: a well-formed two-instruction program (`Enter` then running
off the end) and the empty program, classified by the amended theorem. -/
theorem C10_exec_amended_witness :
    En.exec 8 { pc := [], xr := [], vars := [], piT := [], args := .atom "[]",
                astack := .atom "[]", env := [], vc := 0, cutParent := 0 } =
      .errHost "non-exit end of bytecode" ∧
    En.exec 8 { pc := [⟨.opExit, 0⟩], xr := [], vars := [], piT := [],
                args := .atom "[]", astack := .atom "[]", env := [], vc := 0,
                cutParent := 0 } ≠ .panicked := by
  constructor
  · exact (C10_exec_amended 8 _ (by intro i hi; cases hi)).1 rfl
  · exact (C10_exec_amended 8 _ (by
      intro i hi
      simp only [List.mem_singleton] at hi
      rw [hi]
      trivial)).2.2

end Prolog
